import Mathlib

/-!
Verification of the exhume_exfat read-only exFAT decoder.

Shallow embedding conventions:
- Machine integers (u8, u16, u32, u64, usize) are modelled as Nat; wrapping
  u64 arithmetic is made explicit with a modulus of 2 ^ 64 where the source
  can overflow (release-mode semantics).
- Byte buffers are List Nat (each element a byte value).
- Rust String values that originate from on-disk UTF-16LE name entries are
  modelled as the list of UTF-16 code units; the lossy surrogate replacement
  of String.from_utf16_lossy is not modelled because no claim depends on it.
- The seekable byte source always yields the requested bytes in the model;
  the Io error path of the source is outside every claim except where noted.
- A Volume packages what the filesystem facade in fs.rs reads through its
  collaborators: the FAT as a total function from cluster number to the
  32-bit entry value, the cluster heap as a function from cluster number to
  the byte content that read_cluster would return, the derived
  bytes_per_cluster geometry value, and root_dir_first_cluster from the BPB.
-/

namespace ExhumeExfat

/-- Little-endian value of a byte list, as read by the u16/u32/u64 readers. -/
def leBytes : List Nat → Nat
  | [] => 0
  | b :: rest => b + 256 * leBytes rest

/-- Reads n little-endian bytes at offset o. In bpb.rs and direntry.rs every
such read is bounds-checked, but all offsets are constants that fit inside
the already length-checked buffer, so the bounds failure is unreachable and
the read is modelled as total. -/
def readLE (bs : List Nat) (o n : Nat) : Nat := leBytes ((bs.drop o).take n)

/-! ## fat.rs: the FAT walker -/

/-- End-of-chain predicate from fat.rs: values at or above 0xFFFFFFF8. -/
def isEoc (v : Nat) : Bool := 4294967288 ≤ v

/-- Loop body of Fat::walk_chain. The fuel argument is max minus the steps
counter of the source; the loop condition steps < max is fuel > 0. The seen
set is a list, the out vector is the acc list appended at the end. -/
def walkChainGo (fat : Nat → Nat) : Nat → Nat → List Nat → List Nat → List Nat
  | 0, _, _, acc => acc
  | fuel + 1, cur, seen, acc =>
    if 2 ≤ cur ∧ cur < 4294967280 then
      if cur ∈ seen then acc
      else
        let acc2 := acc ++ [cur]
        let next := fat cur
        if isEoc next then acc2
        else if next = 0 then acc2
        else if next = cur then acc2
        else walkChainGo fat fuel next (cur :: seen) acc2
    else acc

/-- Fat::walk_chain from fat.rs. Io failures of read_entry cannot occur in
the model because the FAT is a total function; the benign terminations
(end of chain, free cluster, self loop, cycle, step bound) are not errors
in the source either. -/
def walkChain (fat : Nat → Nat) (firstCluster max : Nat) : List Nat :=
  if firstCluster < 2 then [] else walkChainGo fat max firstCluster [] []

/-- The FAT of scenario S5: entry 10 points to 11 and entry 11 back to 10. -/
def fatS5 : Nat → Nat := fun c => if c = 10 then 11 else if c = 11 then 10 else 0

/-! ## direntry.rs: the directory-entry codec -/

inductive EntryType where
  | End
  | AllocationBitmap
  | UpCaseTable
  | VolumeLabel
  | File
  | StreamExt
  | FileName
  | Unknown (v : Nat)
deriving DecidableEq

/-- From u8 for EntryType in direntry.rs. -/
def kindOf (v : Nat) : EntryType :=
  if v = 0 then .End
  else if v = 129 then .AllocationBitmap
  else if v = 130 then .UpCaseTable
  else if v = 131 then .VolumeLabel
  else if v = 133 then .File
  else if v = 192 then .StreamExt
  else if v = 193 then .FileName
  else .Unknown v

/-- A 32-byte raw directory record, as in direntry.rs. -/
structure RawDirEnt where
  entryType : Nat
  raw : List Nat
deriving DecidableEq

/-- RawDirEnt::from_bytes: copies the first 32 bytes, entry type is byte 0. -/
def RawDirEnt.fromBytes (b : List Nat) : RawDirEnt :=
  { entryType := b.headD 0, raw := b.take 32 }

def RawDirEnt.kind (e : RawDirEnt) : EntryType := kindOf e.entryType

/-- Primary 0x85 entry fields, as parsed in direntry.rs. -/
structure FileDirectoryEntry where
  secondaryCount : Nat
  setChecksum : Nat
  attributes : Nat
  createTime : Nat
  lastModTime : Nat
  lastAccessTime : Nat
deriving DecidableEq

def FileDirectoryEntry.parse (e : RawDirEnt) : FileDirectoryEntry :=
  { secondaryCount := e.raw.getD 1 0
    setChecksum := readLE e.raw 2 2
    attributes := readLE e.raw 4 2
    createTime := readLE e.raw 8 4
    lastModTime := readLE e.raw 12 4
    lastAccessTime := readLE e.raw 16 4 }

/-- Secondary 0xC0 stream extension fields, as parsed in direntry.rs. -/
structure StreamExtensionEntry where
  generalFlags : Nat
  firstCluster : Nat
  dataLength : Nat
deriving DecidableEq

def StreamExtensionEntry.parse (e : RawDirEnt) : StreamExtensionEntry :=
  { generalFlags := e.raw.getD 1 0
    firstCluster := readLE e.raw 20 4
    dataLength := readLE e.raw 24 8 }

/-- Successive little-endian u16 code units from a byte list. -/
def pairsLE : List Nat → List Nat
  | b0 :: b1 :: rest => (b0 + 256 * b1) :: pairsLE rest
  | _ => []

/-- FileNameEntry::parse: the 15 UTF-16LE code units in bytes 2..32, cut at
the first NUL; the resulting Rust String is modelled as its code-unit list. -/
def nameFragment (e : RawDirEnt) : List Nat :=
  (pairsLE ((e.raw.drop 2).take 30)).takeWhile (fun u => u != 0)

/-- Assembled FileRecord; the Rust String name is its UTF-16 code-unit list. -/
structure FileRecord where
  name : List Nat
  attributes : Nat
  firstCluster : Nat
  size : Nat
deriving DecidableEq

def FileRecord.isDir (fr : FileRecord) : Bool := fr.attributes &&& 16 != 0

/-- Loop body of assemble_file: the fold state is the pending
FileDirectoryEntry, the pending StreamExtensionEntry and the name so far. -/
def assembleStep (st : Option FileDirectoryEntry × Option StreamExtensionEntry × List Nat)
    (e : RawDirEnt) : Option FileDirectoryEntry × Option StreamExtensionEntry × List Nat :=
  match e.kind with
  | .File => (some (FileDirectoryEntry.parse e), st.2.1, st.2.2)
  | .StreamExt => (st.1, some (StreamExtensionEntry.parse e), st.2.2)
  | .FileName => (st.1, st.2.1, st.2.2 ++ nameFragment e)
  | _ => st

/-- assemble_file from direntry.rs. -/
def assembleFile (set : List RawDirEnt) : Option FileRecord :=
  if set.isEmpty then none
  else
    match set.foldl assembleStep (none, none, []) with
    | (some fd, some st, nm) =>
        some { name := nm, attributes := fd.attributes,
               firstCluster := st.firstCluster, size := st.dataLength }
    | _ => none

/-! ## fs.rs: the filesystem facade -/

/-- The data the facade reads through its collaborators: the FAT entries,
the content read_cluster returns for each cluster, and the geometry values
taken from the parsed BootSector. -/
structure Volume where
  fat : Nat → Nat
  cluster : Nat → List Nat
  bytesPerCluster : Nat
  rootDirFirstCluster : Nat

/-- Splits a buffer into 32-byte chunks, dropping a trailing short chunk,
exactly as the chunk loop of read_dir_entries_from_chain does. The fuel is
the buffer length, enough for every step since each step consumes 32 bytes. -/
def chunks32Go : Nat → List Nat → List (List Nat)
  | 0, _ => []
  | n + 1, buf => if buf.length < 32 then [] else buf.take 32 :: chunks32Go n (buf.drop 32)

def chunks32 (buf : List Nat) : List (List Nat) := chunks32Go buf.length buf

/-- read_dir_entries_from_chain: walk the FAT chain with max 1,000,000, read
each cluster, slice into 32-byte records. -/
def readDirEntriesFromChain (vol : Volume) (firstCluster : Nat) : List RawDirEnt :=
  ((walkChain vol.fat firstCluster 1000000).map
    (fun cl => (chunks32 (vol.cluster cl)).map RawDirEnt.fromBytes)).flatten

/-- Loop of list_dir: groups an entry set at each in-use File record, stops
at an End record, skips other kinds. Fuel is the entry count; every step
consumes at least one record. -/
def listDirGo : Nat → List RawDirEnt → List FileRecord
  | 0, _ => []
  | _ + 1, [] => []
  | n + 1, e :: rest =>
    match e.kind with
    | .End => []
    | .File =>
      let sc := e.raw.getD 1 0
      match assembleFile (e :: rest.take sc) with
      | some fr => fr :: listDirGo n (rest.drop sc)
      | none => listDirGo n (rest.drop sc)
    | _ => listDirGo n rest

/-- list_dir from fs.rs. -/
def listDir (vol : Volume) (firstCluster : Nat) : List FileRecord :=
  let ents := readDirEntriesFromChain vol firstCluster
  listDirGo ents.length ents

/-- Loop of list_dir_with_inodes; i tracks the record index inside the
directory record sequence, and the fake inode is first_cluster shifted left
by 32 bits or-ed with the primary record index. -/
def listDirWithInodesGo (fc : Nat) : Nat → Nat → List RawDirEnt → List (Nat × FileRecord)
  | 0, _, _ => []
  | _ + 1, _, [] => []
  | n + 1, i, e :: rest =>
    match e.kind with
    | .End => []
    | .File =>
      let sc := e.raw.getD 1 0
      match assembleFile (e :: rest.take sc) with
      | some fr => ((fc <<< 32) ||| i, fr) :: listDirWithInodesGo fc n (i + 1 + min sc rest.length) (rest.drop sc)
      | none => listDirWithInodesGo fc n (i + 1 + min sc rest.length) (rest.drop sc)
    | _ => listDirWithInodesGo fc n (i + 1) rest

/-- list_dir_with_inodes from fs.rs. -/
def listDirWithInodes (vol : Volume) (firstCluster : Nat) : List (Nat × FileRecord) :=
  let ents := readDirEntriesFromChain vol firstCluster
  listDirWithInodesGo firstCluster ents.length 0 ents

/-- One insertion of ensure_index: inode, parent first cluster, primary
record index, and the assembled record, mirroring the HashMap value. -/
structure IndexEntry where
  ino : Nat
  parent : Nat
  idx : Nat
  record : FileRecord
deriving DecidableEq

/-- Inner loop of ensure_index for one popped directory cluster: the list of
inserted index entries in insertion order, and the directory first clusters
pushed onto the traversal stack in push order. -/
def ensureIndexDirGo (dc : Nat) : Nat → Nat → List RawDirEnt → List IndexEntry × List Nat
  | 0, _, _ => ([], [])
  | _ + 1, _, [] => ([], [])
  | n + 1, i, e :: rest =>
    match e.kind with
    | .End => ([], [])
    | .File =>
      let sc := e.raw.getD 1 0
      match assembleFile (e :: rest.take sc) with
      | some fr =>
        let tail := ensureIndexDirGo dc n (i + 1 + min sc rest.length) (rest.drop sc)
        (⟨(dc <<< 32) ||| i, dc, i, fr⟩ :: tail.1,
         (if fr.isDir ∧ 2 ≤ fr.firstCluster then [fr.firstCluster] else []) ++ tail.2)
      | none => ensureIndexDirGo dc n (i + 1 + min sc rest.length) (rest.drop sc)
    | _ => ensureIndexDirGo dc n (i + 1) rest

def ensureIndexDir (vol : Volume) (dc : Nat) : List IndexEntry × List Nat :=
  let ents := readDirEntriesFromChain vol dc
  ensureIndexDirGo dc ents.length 0 ents

/-- Stack-driven loop of ensure_index. The source loop has no step bound at
all; the fuel argument only makes the embedding total, and a run that still
has a nonempty stack when the fuel ends is reported as none. The stack is a
list whose head is the top, matching Vec push and pop at the end. -/
def ensureIndexLoop (vol : Volume) : Nat → List Nat → List IndexEntry → Option (List IndexEntry)
  | _, [], acc => some acc
  | 0, _ :: _, _ => none
  | n + 1, dc :: st, acc =>
    let step := ensureIndexDir vol dc
    ensureIndexLoop vol n (step.2.foldl (fun s c => c :: s) st) (acc ++ step.1)

/-- ensure_index from fs.rs, starting from root_dir_first_cluster. -/
def ensureIndex (vol : Volume) (fuel : Nat) : Option (List IndexEntry) :=
  ensureIndexLoop vol fuel [vol.rootDirFirstCluster] []

/-- The cluster_guess bound of read_file: integer (floor) division of the
file size by bytes_per_cluster, plus 4. -/
def readFileBound (vol : Volume) (fr : FileRecord) : Nat :=
  fr.size / vol.bytesPerCluster + 4

/-- The chain computed inside read_file. -/
def readFileChain (vol : Volume) (fr : FileRecord) : List Nat :=
  walkChain vol.fat fr.firstCluster (readFileBound vol fr)

/-- Concatenation loop of read_file, with the early break once the output
has reached the file size. -/
def readFileGo (vol : Volume) (size : Nat) : List Nat → List Nat → List Nat
  | [], out => out
  | cl :: rest, out =>
    let out2 := out ++ vol.cluster cl
    if size ≤ out2.length then out2 else readFileGo vol size rest out2

/-- read_file from fs.rs: walk, concatenate, truncate to the file size. -/
def readFile (vol : Volume) (fr : FileRecord) : List Nat :=
  (readFileGo vol fr.size (readFileChain vol fr) []).take fr.size

/-! ## bpb.rs: the boot sector decoder -/

/-- The 8-byte ASCII literal EXFAT followed by three spaces. -/
def exfatOemName : List Nat := [69, 88, 70, 65, 84, 32, 32, 32]

/-- Modulus of wrapping u64 arithmetic. -/
def U64 : Nat := 18446744073709551616

/-- Wrapping u64 subtraction. -/
def u64sub (a b : Nat) : Nat := (a % U64 + U64 - b % U64) % U64

/-- Parsed boot sector fields, as in bpb.rs. -/
structure BootSector where
  oemName : List Nat
  partitionOffset : Nat
  volumeLength : Nat
  fatOffset : Nat
  fatLength : Nat
  clusterHeapOffset : Nat
  clusterCount : Nat
  rootDirFirstCluster : Nat
  volumeSerial : Nat
  fsRevision : Nat
  volumeFlags : Nat
  bytesPerSectorShift : Nat
  sectorsPerClusterShift : Nat
  numFats : Nat
  driveSelect : Nat
deriving DecidableEq

/-- One shifted left by the shift amount; Rust masks u64 shift amounts to 6 bits
in release mode, and every validator-accepted shift is far below 64. -/
def BootSector.bytesPerSector (b : BootSector) : Nat := 2 ^ (b.bytesPerSectorShift % 64)

def BootSector.sectorsPerCluster (b : BootSector) : Nat := 2 ^ (b.sectorsPerClusterShift % 64)

def BootSector.bytesPerCluster (b : BootSector) : Nat :=
  b.bytesPerSector * b.sectorsPerCluster % U64

def BootSector.fatStartByte (b : BootSector) : Nat :=
  b.fatOffset * b.bytesPerSector % U64

/-- cluster_to_byte_offset from bpb.rs with explicit wrapping u64 steps:
the subtraction clus - 2, the multiplication by sectors_per_cluster, the
addition of cluster_heap_offset and the final multiplication all wrap. -/
def BootSector.clusterToByteOffset (b : BootSector) (clus : Nat) : Nat :=
  (b.clusterHeapOffset + (clus + U64 - 2) % U64 * b.sectorsPerCluster % U64) % U64
    * b.bytesPerSector % U64

/-- Structural stand-ins for the formatted parse failure strings of bpb.rs;
each constructor keeps the data the message interpolates. -/
inductive ParseErr where
  | tooShort (len : Nat)
  | badSignature
  | oemNotExfat (oem : List Nat)
  | badRevision (rev : Nat)
  | badNumFats (n : Nat)
  | zeroVolumeLength
  | badFatLocation (off len : Nat)
  | badClusterHeap (off cnt : Nat)
  | rootBelowTwo (r : Nat)
  | badBpsShift (s : Nat)
  | badSpcShift (s : Nat)
  | badBpcRange (b : Nat)
  | fatOverlapsHeap (fatEnd heapOff : Nat)
  | rootOutOfRange (r last : Nat)
deriving DecidableEq

/-- The field extraction of BootSector::from_bytes at the documented
little-endian offsets. -/
def parseBootSectorFields (bs : List Nat) : BootSector :=
  { oemName := (bs.drop 3).take 8
    partitionOffset := readLE bs 64 8
    volumeLength := readLE bs 72 8
    fatOffset := readLE bs 80 4
    fatLength := readLE bs 84 4
    clusterHeapOffset := readLE bs 88 4
    clusterCount := readLE bs 92 4
    rootDirFirstCluster := readLE bs 96 4
    volumeSerial := readLE bs 100 4
    fsRevision := readLE bs 104 2
    volumeFlags := readLE bs 106 2
    bytesPerSectorShift := bs.getD 108 0
    sectorsPerClusterShift := bs.getD 109 0
    numFats := bs.getD 110 0
    driveSelect := bs.getD 111 0 }

/-- The field checks of BootSector::from_bytes applied to the parsed
fields, in source order; me is the freshly parsed BootSector. -/
def validateBoot (me : BootSector) : Except ParseErr BootSector :=
  if me.oemName ≠ exfatOemName then .error (.oemNotExfat me.oemName)
  else if me.fsRevision ≠ 256 then .error (.badRevision me.fsRevision)
  else if me.numFats ≠ 1 then .error (.badNumFats me.numFats)
  else if me.volumeLength = 0 then .error .zeroVolumeLength
  else if me.fatOffset = 0 ∨ me.fatLength = 0 then
    .error (.badFatLocation me.fatOffset me.fatLength)
  else if me.clusterHeapOffset = 0 ∨ me.clusterCount < 2 then
    .error (.badClusterHeap me.clusterHeapOffset me.clusterCount)
  else if me.rootDirFirstCluster < 2 then .error (.rootBelowTwo me.rootDirFirstCluster)
  else if ¬ (9 ≤ me.bytesPerSectorShift ∧ me.bytesPerSectorShift ≤ 12) then
    .error (.badBpsShift me.bytesPerSectorShift)
  else if 25 < me.sectorsPerClusterShift then .error (.badSpcShift me.sectorsPerClusterShift)
  else if me.bytesPerCluster < 4096 ∨ 33554432 < me.bytesPerCluster then
    .error (.badBpcRange me.bytesPerCluster)
  else if me.clusterHeapOffset < me.fatOffset + me.fatLength then
    .error (.fatOverlapsHeap (me.fatOffset + me.fatLength) me.clusterHeapOffset)
  else if me.rootDirFirstCluster < 2 ∨ me.clusterCount + 1 < me.rootDirFirstCluster then
    .error (.rootOutOfRange me.rootDirFirstCluster (me.clusterCount + 1))
  else .ok me

/-- BootSector::from_bytes: the validation chain of bpb.rs, in source order.
The value 43605 is 0xAA55 and 33554432 is 32 MiB. -/
def BootSector.fromBytes (bs : List Nat) : Except ParseErr BootSector :=
  if bs.length < 512 then .error (.tooShort bs.length)
  else if readLE bs 510 2 ≠ 43605 then .error .badSignature
  else validateBoot (parseBootSectorFields bs)


instance {ε α : Type} [DecidableEq ε] [DecidableEq α] : DecidableEq (Except ε α) := fun a b =>
  match a, b with
  | .ok x, .ok y =>
    if h : x = y then .isTrue (by rw [h]) else .isFalse (fun he => h (Except.ok.inj he))
  | .error x, .error y =>
    if h : x = y then .isTrue (by rw [h]) else .isFalse (fun he => h (Except.error.inj he))
  | .ok _, .error _ => .isFalse (fun he => Except.noConfusion he)
  | .error _, .ok _ => .isFalse (fun he => Except.noConfusion he)

/-! ## Error kinds of the facade -/

/-- FsError from fs.rs; the formatted message payloads are kept as data
(ParseErr for Parse, the component or name code units for the others). -/
inductive FsErr where
  | ioError
  | parse (e : ParseErr)
  | notFound (msg : List Nat)
  | notAFile (msg : List Nat)
deriving DecidableEq

/-- The four error kinds of the design, without their message payloads. -/
inductive ErrKind where
  | ioError
  | parse
  | notFound
  | notAFile
deriving DecidableEq

def FsErr.kind : FsErr → ErrKind
  | .ioError => .ioError
  | .parse _ => .parse
  | .notFound _ => .notFound
  | .notAFile _ => .notAFile

/-- Forgets the message payload of a failure, keeping the error kind. -/
def outcomeOf : Except FsErr (List Nat) → Except ErrKind (List Nat)
  | .ok v => .ok v
  | .error e => .error e.kind

/-- The BPB stage of ExFatFS::new: read 512 bytes from offset 0 (an Io
failure if the source is shorter) and parse them, mapping a parse failure
to the Parse error kind. -/
def exfatNew (img : List Nat) : Except FsErr BootSector :=
  if img.length < 512 then .error .ioError
  else
    match BootSector.fromBytes (img.take 512) with
    | .error e => .error (.parse e)
    | .ok b => .ok b

/-! ## read_path -/

def toUpperAscii (c : Nat) : Nat := if 97 ≤ c ∧ c ≤ 122 then c - 32 else c

def toLowerAscii (c : Nat) : Nat := if 65 ≤ c ∧ c ≤ 90 then c + 32 else c

/-- to_ascii_lowercase on one character, the fold used by
eq_ignore_ascii_case. -/
def foldAsciiLower (c : Nat) : Nat := if 65 ≤ c ∧ c ≤ 90 then c + 32 else c

/-- str::eq_ignore_ascii_case: equal lengths and pointwise equality after
ASCII lowercasing. -/
def eqIgnoreAsciiCase (a b : List Nat) : Bool :=
  a.map foldAsciiLower == b.map foldAsciiLower

/-- Splitting on the slash character (47), as str::split does: the
accumulator collects the current component in reverse. -/
def splitSlashGo : List Nat → List Nat → List (List Nat)
  | [], acc => [acc.reverse]
  | c :: rest, acc =>
    if c = 47 then acc.reverse :: splitSlashGo rest [] else splitSlashGo rest (c :: acc)

def splitSlash (p : List Nat) : List (List Nat) := splitSlashGo p []

/-- Component loop of read_path. The final component must not be a
directory; a missing component is NotFound carrying the component text. The
empty-list case corresponds to the trailing NotFound(path) return of the
source, which is unreachable because the loop always returns on the last
component. -/
def readPathGo (vol : Volume) : List (List Nat) → Nat → Except FsErr (List Nat)
  | [], _ => .error (.notFound [])
  | [comp], cur =>
    match (listDir vol cur).find? (fun e => eqIgnoreAsciiCase e.name comp) with
    | some fr => if fr.isDir then .error (.notAFile fr.name) else .ok (readFile vol fr)
    | none => .error (.notFound comp)
  | comp :: c2 :: rest, cur =>
    match (listDir vol cur).find? (fun e => eqIgnoreAsciiCase e.name comp) with
    | some fr => readPathGo vol (c2 :: rest) fr.firstCluster
    | none => .error (.notFound comp)

/-- read_path from fs.rs: split on slash, drop empty components, descend
from the root directory. -/
def readPath (vol : Volume) (p : List Nat) : Except FsErr (List Nat) :=
  let parts := (splitSlash p).filter (fun c => !c.isEmpty)
  if parts.isEmpty then .error (.notAFile [47])
  else readPathGo vol parts vol.rootDirFirstCluster

/-! ## exinode.rs and compat.rs -/

structure ExInode where
  iNum : Nat
  attributes : Nat
  firstCluster : Nat
  size : Nat
  name : List Nat
deriving DecidableEq

def ExInode.isDir (i : ExInode) : Bool := i.attributes &&& 16 != 0

def ExInode.fromRecord (iNum : Nat) (fr : FileRecord) : ExInode :=
  { iNum := iNum, attributes := fr.attributes, firstCluster := fr.firstCluster,
    size := fr.size, name := fr.name }

structure CompatDirEntry where
  inode : Nat
  recLen : Nat
  fileType : Nat
  name : List Nat
deriving DecidableEq

/-- CompatDirEntry::from_name_inode: rec_len 32, file type 2 for a
directory and 1 for a regular file. -/
def CompatDirEntry.fromNameInode (name : List Nat) (inode : Nat) (isDirFlag : Bool) : CompatDirEntry :=
  { inode := inode, recLen := 32, fileType := if isDirFlag then 2 else 1, name := name }

/-- Lexicographic comparison of code-unit lists, the order of the sort_by
comparator a.name.cmp(b.name) in list_dir_inode. -/
def lexLeB : List Nat → List Nat → Bool
  | [], _ => true
  | _ :: _, [] => false
  | a :: as, b :: bs => if a < b then true else if b < a then false else lexLeB as bs

def nameLe (a b : CompatDirEntry) : Prop := lexLeB a.name b.name = true

instance : DecidableRel nameLe := fun _ _ => inferInstanceAs (Decidable (_ = true))


instance : IsTotal CompatDirEntry nameLe := by
  constructor
  have key : ∀ a b : List Nat, lexLeB a b = true ∨ lexLeB b a = true := by
    intro a
    induction a with
    | nil => intro b; exact Or.inl rfl
    | cons x xs ih =>
      intro b
      cases b with
      | nil => exact Or.inr rfl
      | cons y ys =>
        by_cases hxy : x < y
        · exact Or.inl (by simp [lexLeB, hxy])
        · by_cases hyx : y < x
          · exact Or.inr (by simp [lexLeB, hyx])
          · cases ih ys with
            | inl h => exact Or.inl (by simp [lexLeB, hxy, hyx, h])
            | inr h => exact Or.inr (by simp [lexLeB, hxy, hyx, h])
  exact fun a b => key a.name b.name

instance : IsTrans CompatDirEntry nameLe := by
  constructor
  have key : ∀ a b c : List Nat, lexLeB a b = true → lexLeB b c = true → lexLeB a c = true := by
    intro a
    induction a with
    | nil => intro b c _ _; rfl
    | cons x xs ih =>
      intro b c hab hbc
      cases b with
      | nil => exact absurd hab (by simp [lexLeB])
      | cons y ys =>
        cases c with
        | nil => exact absurd hbc (by simp [lexLeB])
        | cons z zs =>
          simp only [lexLeB] at hab hbc ⊢
          split_ifs at hab hbc ⊢ <;>
            first
              | rfl
              | exact ih ys zs hab hbc
              | (exfalso; omega)
  exact fun a b c => key a.name b.name c.name

/-- The text of the NotFound message emitted by list_dir_inode for a
non-directory inode. -/
def notADirectoryMsg : List Nat :=
  [110, 111, 116, 32, 97, 32, 100, 105, 114, 101, 99, 116, 111, 114, 121]

/-- list_dir_inode from fs.rs, over an already built index (ensure_index
runs first in the source; the built index is the parameter here). The
source iterates the map pushing every entry whose parent matches, then
sorts by name; the map iteration order is the list order of the parameter,
and the sort is modelled by insertion sort with the same comparator. -/
def listDirInode (index : List IndexEntry) (inode : ExInode) : Except FsErr (List CompatDirEntry) :=
  if !inode.isDir then .error (.notFound notADirectoryMsg)
  else
    .ok (List.insertionSort nameLe
      ((index.filter (fun e => e.parent == inode.firstCluster)).map
        (fun e => CompatDirEntry.fromNameInode e.record.name e.ino e.record.isDir)))

/-! ## Concrete inputs used by counterexamples and witnesses -/

/-- An in-use File primary record with secondary count 2 and the directory
attribute bit 0x10 set. -/
def fileEntDirRaw : List Nat := [133, 2, 0, 0, 16, 0] ++ List.replicate 26 0

/-- A stream extension record naming the given first cluster with data
length 0. -/
def streamEntRaw (fc : Nat) : List Nat :=
  [192, 0] ++ List.replicate 18 0 ++ [fc, 0, 0, 0] ++ List.replicate 8 0

/-- A file name record holding the single letter A. -/
def nameEntRaw : List Nat := [193, 0, 65, 0] ++ List.replicate 28 0

def endEntRaw : List Nat := List.replicate 32 0

/-- A volume whose root directory (cluster 2) holds one subdirectory whose
first cluster is 3, and whose cluster 3 holds one subdirectory pointing
back at cluster 2: a directory-graph cycle. Every FAT entry is end of
chain, so each single directory listing terminates. -/
def cyclVol : Volume :=
  { fat := fun _ => 4294967295
    cluster := fun c =>
      if c = 2 then fileEntDirRaw ++ streamEntRaw 3 ++ nameEntRaw ++ endEntRaw
      else if c = 3 then fileEntDirRaw ++ streamEntRaw 2 ++ nameEntRaw ++ endEntRaw
      else []
    bytesPerCluster := 4096
    rootDirFirstCluster := 2 }

/-- A volume with the FAT chain 2, 3, 4, 5, 6 ending at cluster 6. -/
def chainVol : Volume :=
  { fat := fun c => if 2 ≤ c ∧ c < 6 then c + 1 else if c = 6 then 4294967295 else 0
    cluster := fun _ => List.replicate 8 0
    bytesPerCluster := 4096
    rootDirFirstCluster := 2 }

/-- A one-byte file starting at cluster 2 of chainVol. -/
def smallFr : FileRecord := { name := [], attributes := 32, firstCluster := 2, size := 1 }

/-- A tiny volume for the read_file witness: clusters of four bytes, chain
2 then 3. -/
def c3Vol : Volume :=
  { fat := fun c => if c = 2 then 3 else 4294967295
    cluster := fun c => [c, c, c, c]
    bytesPerCluster := 4
    rootDirFirstCluster := 2 }

def c3Fr : FileRecord := { name := [], attributes := 32, firstCluster := 2, size := 6 }

/-- A volume with nothing in it, for the read_path witness. -/
def emptyVol : Volume :=
  { fat := fun _ => 0, cluster := fun _ => [], bytesPerCluster := 4096, rootDirFirstCluster := 2 }

/-- Entry sets for the assemble_file witness. -/
def setFull : List RawDirEnt :=
  [RawDirEnt.fromBytes fileEntDirRaw, RawDirEnt.fromBytes (streamEntRaw 3), RawDirEnt.fromBytes nameEntRaw]

def setNoFile : List RawDirEnt :=
  [RawDirEnt.fromBytes (streamEntRaw 3), RawDirEnt.fromBytes nameEntRaw]

def setNoStream : List RawDirEnt :=
  [RawDirEnt.fromBytes fileEntDirRaw, RawDirEnt.fromBytes nameEntRaw]

/-- A small built index: a regular file named B and a directory named A,
both children of the directory whose first cluster is 2. -/
def c10Index : List IndexEntry :=
  [⟨8589934592, 2, 0, ⟨[66], 32, 5, 10⟩⟩, ⟨8589934593, 2, 1, ⟨[65], 16, 7, 0⟩⟩]

def c10DirInode : ExInode := ⟨4, 16, 2, 0, []⟩

def c10FileInode : ExInode := ⟨5, 32, 9, 3, []⟩

/-- A validator-accepted 512-byte boot sector: EXFAT oem name, revision
0x0100, one FAT, shifts 9 and 3, FAT at sectors 8..16, heap at 16, 64
clusters, root at cluster 4, signature 0x55 0xAA. -/
def validSector : List Nat :=
  [235, 118, 144] ++ exfatOemName ++ List.replicate 53 0 ++
  List.replicate 8 0 ++ [1, 0, 0, 0, 0, 0, 0, 0] ++ [8, 0, 0, 0] ++ [8, 0, 0, 0] ++
  [16, 0, 0, 0] ++ [64, 0, 0, 0] ++ [4, 0, 0, 0] ++ [0, 0, 0, 0] ++ [0, 1] ++ [0, 0] ++
  [9] ++ [3] ++ [1] ++ [128] ++ List.replicate 398 0 ++ [85, 170]

/-- The BootSector that validSector parses to. -/
def validBoot : BootSector :=
  { oemName := exfatOemName, partitionOffset := 0, volumeLength := 1, fatOffset := 8,
    fatLength := 8, clusterHeapOffset := 16, clusterCount := 64, rootDirFirstCluster := 4,
    volumeSerial := 0, fsRevision := 256, volumeFlags := 0, bytesPerSectorShift := 9,
    sectorsPerClusterShift := 3, numFats := 1, driveSelect := 128 }

/-- The ASCII bytes of MSDOS5.0. -/
def msdosOemName : List Nat := [77, 83, 68, 79, 83, 53, 46, 48]

/-- A 512-byte sector carrying MSDOS5.0 at bytes 3..11 and the boot
signature at 510..512. -/
def msdosSector : List Nat := [0, 0, 0] ++ msdosOemName ++ List.replicate 499 0 ++ [85, 170]

/-! ## Theorems -/

theorem walkChainGo_length_le (fat : Nat → Nat) :
    ∀ fuel cur seen acc, (walkChainGo fat fuel cur seen acc).length ≤ acc.length + fuel := by
  intro fuel
  induction fuel with
  | zero => intro cur seen acc; simp [walkChainGo]
  | succ n ih =>
    intro cur seen acc
    simp only [walkChainGo]
    split
    · split
      · omega
      · split
        · simp
        · split
          · simp
          · split
            · simp
            · have h := ih (fat cur) (cur :: seen) (acc ++ [cur])
              simp at h
              omega
    · omega

theorem walkChainGo_nodup (fat : Nat → Nat) :
    ∀ fuel cur seen acc, acc.Nodup → (∀ x ∈ acc, x ∈ seen) →
      (walkChainGo fat fuel cur seen acc).Nodup := by
  intro fuel
  induction fuel with
  | zero => intro cur seen acc hnd _; simpa [walkChainGo] using hnd
  | succ n ih =>
    intro cur seen acc hnd hsub
    simp only [walkChainGo]
    split
    · split
      · exact hnd
      · rename_i hnotseen
        have hcurnot : cur ∉ acc := fun hmem => hnotseen (hsub cur hmem)
        have hnd2 : (acc ++ [cur]).Nodup := by
          rw [List.nodup_append]
          exact ⟨hnd, List.nodup_singleton cur, by simpa using fun hmem => hcurnot hmem⟩
        have hsub2 : ∀ x ∈ acc ++ [cur], x ∈ cur :: seen := by
          intro x hx
          rcases List.mem_append.mp hx with hx | hx
          · exact List.mem_cons_of_mem _ (hsub x hx)
          · simp at hx; simp [hx]
        split
        · exact hnd2
        · split
          · exact hnd2
          · split
            · exact hnd2
            · exact ih (fat cur) (cur :: seen) (acc ++ [cur]) hnd2 hsub2
    · exact hnd

/-- C4: for every FAT contents, start cluster and bound, walk_chain returns
a finite sequence of at most max clusters with no repeated cluster, and on
the S5 volume (FAT entry 10 points to 11 and entry 11 back to 10) the call
walk_chain(10, 1000) returns exactly the clusters 10 and 11; the cycle and
self-loop terminations are value-returning paths of the source, not error
paths, so no error is raised by them. -/
theorem walk_chain_bounded_nodup :
    (∀ (fat : Nat → Nat) (first max : Nat),
      (walkChain fat first max).length ≤ max ∧ (walkChain fat first max).Nodup) ∧
    walkChain fatS5 10 1000 = [10, 11] := by
  constructor
  · intro fat first max
    constructor
    · unfold walkChain
      split
      · simp
      · have h := walkChainGo_length_le fat max first [] []
        simpa using h
    · unfold walkChain
      split
      · simp
      · exact walkChainGo_nodup fat max first [] [] (by simp) (by simp)
  · decide


theorem readFileGo_take (vol : Volume) (size : Nat) :
    ∀ chain out, (readFileGo vol size chain out).take size =
      (out ++ (chain.map vol.cluster).flatten).take size := by
  intro chain
  induction chain with
  | nil => intro out; simp [readFileGo]
  | cons cl rest ih =>
    intro out
    simp only [readFileGo, List.map_cons, List.flatten_cons]
    split
    · rename_i hge
      rw [← List.append_assoc]
      rw [List.take_append_of_le_length hge]
    · rw [ih (out ++ vol.cluster cl)]
      rw [← List.append_assoc]

/-- C2 (counterexample): on the volume whose FAT chain is 2, 3, 4, 5, 6 and
for a one-byte file starting at cluster 2, the chain computed inside
read_file is not the chain walked under the bound ceil(size divided by
bytes_per_cluster) plus 4 that the claim states: the source bound uses
floor division, giving 4 instead of 5 steps. -/
theorem read_file_bound_not_ceil :
    readFileChain chainVol smallFr ≠
      walkChain chainVol.fat smallFr.firstCluster
        ((smallFr.size + chainVol.bytesPerCluster - 1) / chainVol.bytesPerCluster + 4) := by
  decide

/-- C2 (amended): read_file walks the FAT chain starting at
fr.first_cluster with the traversal bound floor(fr.size divided by
bytes_per_cluster) plus 4, then concatenates the clusters of that chain
and truncates the result to fr.size bytes. -/
theorem read_file_floor_bound_and_truncation (vol : Volume) (fr : FileRecord) :
    readFileChain vol fr =
      walkChain vol.fat fr.firstCluster (fr.size / vol.bytesPerCluster + 4) ∧
    readFile vol fr = (((readFileChain vol fr).map vol.cluster).flatten).take fr.size := by
  refine ⟨rfl, ?_⟩
  unfold readFile
  rw [readFileGo_take]
  simp

/-- C3: when every cluster of the chain computed by read_file reads back
bytes_per_cluster bytes and the chain covers the file size, read_file
returns exactly size bytes, equal to the concatenation of the chain
clusters truncated to the size. -/
theorem read_file_exact_size (vol : Volume) (fr : FileRecord)
    (hlen : ∀ c ∈ readFileChain vol fr, (vol.cluster c).length = vol.bytesPerCluster)
    (hcover : fr.size ≤ (readFileChain vol fr).length * vol.bytesPerCluster) :
    (readFile vol fr).length = fr.size ∧
    readFile vol fr = (((readFileChain vol fr).map vol.cluster).flatten).take fr.size := by
  have heq : readFile vol fr = (((readFileChain vol fr).map vol.cluster).flatten).take fr.size := by
    unfold readFile
    rw [readFileGo_take]
    simp
  refine ⟨?_, heq⟩
  rw [heq, List.length_take]
  have hflat : (((readFileChain vol fr).map vol.cluster).flatten).length =
      (readFileChain vol fr).length * vol.bytesPerCluster := by
    rw [List.length_flatten, List.map_map]
    have : (readFileChain vol fr).map (List.length ∘ vol.cluster) =
        (readFileChain vol fr).map (fun _ => vol.bytesPerCluster) :=
      List.map_congr_left (fun c hc => hlen c hc)
    rw [this]
    simp [List.map_const', List.sum_replicate, smul_eq_mul, Nat.mul_comm]
  omega

theorem read_file_exact_size_witness :
    (readFile c3Vol c3Fr).length = c3Fr.size ∧
    readFile c3Vol c3Fr = (((readFileChain c3Vol c3Fr).map c3Vol.cluster).flatten).take c3Fr.size :=
  read_file_exact_size c3Vol c3Fr (by decide) (by decide)


theorem walkChain_single (fat : Nat → Nat) (c max : Nat) (h1 : 1 ≤ max) (h2 : 2 ≤ c)
    (h3 : c < 4294967280) (h4 : isEoc (fat c) = true) : walkChain fat c max = [c] := by
  unfold walkChain
  rw [if_neg (by omega)]
  cases max with
  | zero => omega
  | succ n => simp [walkChainGo, h2, h3, h4]

theorem ensureIndexLoop_cons (vol : Volume) (n dc : Nat) (st : List Nat) (acc : List IndexEntry) :
    ensureIndexLoop vol (n + 1) (dc :: st) acc =
      ensureIndexLoop vol n ((ensureIndexDir vol dc).2.foldl (fun s c => c :: s) st)
        (acc ++ (ensureIndexDir vol dc).1) := rfl

set_option maxRecDepth 10000 in
theorem cyclStep2 : ensureIndexDir cyclVol 2 = ([⟨8589934592, 2, 0, ⟨[65], 16, 3, 0⟩⟩], [3]) := by
  have hchain : walkChain cyclVol.fat 2 1000000 = [2] :=
    walkChain_single _ 2 1000000 (by norm_num) (by norm_num) (by norm_num) (by decide)
  simp only [ensureIndexDir, readDirEntriesFromChain, hchain]
  decide

set_option maxRecDepth 10000 in
theorem cyclStep3 : ensureIndexDir cyclVol 3 = ([⟨12884901888, 3, 0, ⟨[65], 16, 2, 0⟩⟩], [2]) := by
  have hchain : walkChain cyclVol.fat 3 1000000 = [3] :=
    walkChain_single _ 3 1000000 (by norm_num) (by norm_num) (by norm_num) (by decide)
  simp only [ensureIndexDir, readDirEntriesFromChain, hchain]
  decide

/-- C1: the claim says the depth-first index build detects already-visited
directory clusters and always finishes; the source loop in fs.rs carries no
visited set, so on cyclVol (root directory 2 containing a subdirectory
whose first cluster is 3, which contains a subdirectory pointing back to
cluster 2) the stack alternates between clusters 2 and 3 forever: no
amount of fuel makes the stack-driven loop finish. -/
theorem ensure_index_diverges_on_cycle : ∀ fuel, ensureIndex cyclVol fuel = none := by
  have key : ∀ fuel, (∀ acc, ensureIndexLoop cyclVol fuel [2] acc = none) ∧
      (∀ acc, ensureIndexLoop cyclVol fuel [3] acc = none) := by
    intro fuel
    induction fuel with
    | zero => exact ⟨fun _ => rfl, fun _ => rfl⟩
    | succ n ih =>
      constructor
      · intro acc
        rw [ensureIndexLoop_cons, cyclStep2]
        exact ih.2 _
      · intro acc
        rw [ensureIndexLoop_cons, cyclStep3]
        exact ih.1 _
  intro fuel
  exact (key fuel).1 []

theorem ensureIndexDirGo_eq_listDir (dc : Nat) :
    ∀ n i ents,
      ((ensureIndexDirGo dc n i ents).1.map (fun e => (e.ino, e.record)) =
        listDirWithInodesGo dc n i ents) ∧
      ((ensureIndexDirGo dc n i ents).1.all
        (fun e => (e.ino == (dc <<< 32) ||| e.idx) && (e.parent == dc)) = true) := by
  intro n
  induction n with
  | zero => intro i ents; exact ⟨rfl, rfl⟩
  | succ m ih =>
    intro i ents
    cases ents with
    | nil => exact ⟨rfl, rfl⟩
    | cons e rest =>
      simp only [ensureIndexDirGo, listDirWithInodesGo]
      cases hk : e.kind with
      | End => exact ⟨rfl, rfl⟩
      | File =>
        cases ha : assembleFile (e :: rest.take (e.raw.getD 1 0)) with
        | none => simpa using ih (i + 1 + min (e.raw.getD 1 0) rest.length) (rest.drop (e.raw.getD 1 0))
        | some fr =>
          have h := ih (i + 1 + min (e.raw.getD 1 0) rest.length) (rest.drop (e.raw.getD 1 0))
          simp only [ha, List.map_cons, List.all_cons]
          refine ⟨by rw [h.1], ?_⟩
          simp only [Bool.and_eq_true, beq_iff_eq]
          exact ⟨by simp, h.2⟩
      | AllocationBitmap => exact ih (i + 1) rest
      | UpCaseTable => exact ih (i + 1) rest
      | VolumeLabel => exact ih (i + 1) rest
      | StreamExt => exact ih (i + 1) rest
      | FileName => exact ih (i + 1) rest
      | Unknown v => exact ih (i + 1) rest

/-- C6: for the same parent directory first cluster, the inner loop of
ensure_index and list_dir_with_inodes assign the same fake inode to the
same record: the inserted entries of the index traversal project exactly
onto the list_dir_with_inodes output, and every inserted entry carries
i_num equal to the parent first cluster shifted left 32 bits or-ed with
the primary record index, with the parent recorded as that cluster. -/
theorem inode_assignment_agrees (vol : Volume) (dc : Nat) :
    ((ensureIndexDir vol dc).1.map (fun e => (e.ino, e.record)) = listDirWithInodes vol dc) ∧
    ((ensureIndexDir vol dc).1.all
      (fun e => (e.ino == (dc <<< 32) ||| e.idx) && (e.parent == dc)) = true) := by
  unfold ensureIndexDir listDirWithInodes
  exact ensureIndexDirGo_eq_listDir dc _ 0 _


theorem assembleStep_eq_file (st : Option FileDirectoryEntry × Option StreamExtensionEntry × List Nat)
    (e : RawDirEnt) (h : e.kind = EntryType.File) :
    assembleStep st e = (some (FileDirectoryEntry.parse e), st.2.1, st.2.2) := by
  unfold assembleStep; rw [h]

theorem assembleStep_eq_stream (st : Option FileDirectoryEntry × Option StreamExtensionEntry × List Nat)
    (e : RawDirEnt) (h : e.kind = EntryType.StreamExt) :
    assembleStep st e = (st.1, some (StreamExtensionEntry.parse e), st.2.2) := by
  unfold assembleStep; rw [h]

theorem assembleStep_eq_name (st : Option FileDirectoryEntry × Option StreamExtensionEntry × List Nat)
    (e : RawDirEnt) (h : e.kind = EntryType.FileName) :
    assembleStep st e = (st.1, st.2.1, st.2.2 ++ nameFragment e) := by
  unfold assembleStep; rw [h]

theorem assembleFoldl_spec :
    ∀ (set : List RawDirEnt) (st : Option FileDirectoryEntry × Option StreamExtensionEntry × List Nat),
      (set.foldl assembleStep st).1 =
        (set.filter (fun e => e.kind == EntryType.File)).foldl
          (fun _ e => some (FileDirectoryEntry.parse e)) st.1 ∧
      (set.foldl assembleStep st).2.1 =
        (set.filter (fun e => e.kind == EntryType.StreamExt)).foldl
          (fun _ e => some (StreamExtensionEntry.parse e)) st.2.1 ∧
      (set.foldl assembleStep st).2.2 =
        st.2.2 ++ ((set.filter (fun e => e.kind == EntryType.FileName)).map nameFragment).flatten := by
  intro set
  induction set with
  | nil => intro st; simp
  | cons e rest ih =>
    intro st
    cases hk : e.kind with
    | File =>
      have h := ih (some (FileDirectoryEntry.parse e), st.2.1, st.2.2)
      rw [List.foldl_cons, assembleStep_eq_file st e hk]
      simp [List.filter_cons, hk, h.1, h.2.1, h.2.2]
    | StreamExt =>
      have h := ih (st.1, some (StreamExtensionEntry.parse e), st.2.2)
      rw [List.foldl_cons, assembleStep_eq_stream st e hk]
      simp [List.filter_cons, hk, h.1, h.2.1, h.2.2]
    | FileName =>
      have h := ih (st.1, st.2.1, st.2.2 ++ nameFragment e)
      rw [List.foldl_cons, assembleStep_eq_name st e hk]
      simp [List.filter_cons, hk, h.1, h.2.1, h.2.2]
    | End =>
      have hstep : assembleStep st e = st := by unfold assembleStep; rw [hk]
      have h := ih st
      rw [List.foldl_cons, hstep]
      simp [List.filter_cons, hk, h.1, h.2.1, h.2.2]
    | AllocationBitmap =>
      have hstep : assembleStep st e = st := by unfold assembleStep; rw [hk]
      have h := ih st
      rw [List.foldl_cons, hstep]
      simp [List.filter_cons, hk, h.1, h.2.1, h.2.2]
    | UpCaseTable =>
      have hstep : assembleStep st e = st := by unfold assembleStep; rw [hk]
      have h := ih st
      rw [List.foldl_cons, hstep]
      simp [List.filter_cons, hk, h.1, h.2.1, h.2.2]
    | VolumeLabel =>
      have hstep : assembleStep st e = st := by unfold assembleStep; rw [hk]
      have h := ih st
      rw [List.foldl_cons, hstep]
      simp [List.filter_cons, hk, h.1, h.2.1, h.2.2]
    | Unknown v =>
      have hstep : assembleStep st e = st := by unfold assembleStep; rw [hk]
      have h := ih st
      rw [List.foldl_cons, hstep]
      simp [List.filter_cons, hk, h.1, h.2.1, h.2.2]

theorem foldl_some_of_ne_nil {α β : Type} (g : α → β) :
    ∀ (l : List α) (init : Option β), l ≠ [] →
      ∃ b, l.foldl (fun _ e => some (g e)) init = some b := by
  intro l
  induction l with
  | nil => intro init h; exact absurd rfl h
  | cons a rest ih =>
    intro init _
    cases rest with
    | nil => exact ⟨g a, rfl⟩
    | cons b t => exact ih (some (g a)) (by simp)

/-- C5: for an entry set whose stream extension records are exactly the
single record s and which contains a File record, assemble_file returns a
record whose size is the data_length of s, whose first_cluster is the
first_cluster of s, and whose name is the in-order concatenation of the
name fragments of the FileName records, each cut at its first NUL code
unit; and a set lacking a File record, or lacking a StreamExtension
record, is discarded (assemble_file returns nothing). -/
theorem assemble_file_spec (set : List RawDirEnt) (s : RawDirEnt) :
    (set.filter (fun e => e.kind == EntryType.StreamExt) = [s] →
      (∃ f ∈ set, f.kind = EntryType.File) →
      ∃ fr, assembleFile set = some fr ∧
        fr.size = (StreamExtensionEntry.parse s).dataLength ∧
        fr.firstCluster = (StreamExtensionEntry.parse s).firstCluster ∧
        fr.name = ((set.filter (fun e => e.kind == EntryType.FileName)).map nameFragment).flatten) ∧
    ((∀ e ∈ set, e.kind ≠ EntryType.File) → assembleFile set = none) ∧
    ((∀ e ∈ set, e.kind ≠ EntryType.StreamExt) → assembleFile set = none) := by
  refine ⟨?_, ?_, ?_⟩
  · intro hstream hfile
    have hsp := assembleFoldl_spec set (none, none, [])
    obtain ⟨f1, hf1⟩ : ∃ b, (set.filter (fun e => e.kind == EntryType.File)).foldl
        (fun _ e => some (FileDirectoryEntry.parse e)) none = some b := by
      apply foldl_some_of_ne_nil
      obtain ⟨f, hfmem, hfk⟩ := hfile
      intro hnil
      have hmem : f ∈ set.filter (fun e => e.kind == EntryType.File) :=
        List.mem_filter.mpr ⟨hfmem, by rw [hfk]; rfl⟩
      rw [hnil] at hmem
      exact absurd hmem (List.not_mem_nil f)
    have hfold : set.foldl assembleStep (none, none, []) =
        (some f1, some (StreamExtensionEntry.parse s),
          ((set.filter (fun e => e.kind == EntryType.FileName)).map nameFragment).flatten) := by
      refine Prod.ext ?_ (Prod.ext ?_ ?_)
      · rw [hsp.1, hf1]
      · rw [hsp.2.1, hstream]; rfl
      · rw [hsp.2.2]; rfl
    have hne : set.isEmpty = false := by
      have hs_mem : s ∈ set.filter (fun e => e.kind == EntryType.StreamExt) := by
        rw [hstream]; exact List.mem_singleton_self s
      have hs_set := (List.mem_filter.mp hs_mem).1
      cases set with
      | nil => exact absurd hs_set (List.not_mem_nil s)
      | cons a l => rfl
    have key : assembleFile set = some
        ⟨((set.filter (fun e => e.kind == EntryType.FileName)).map nameFragment).flatten,
          f1.attributes, (StreamExtensionEntry.parse s).firstCluster,
          (StreamExtensionEntry.parse s).dataLength⟩ := by
      unfold assembleFile
      rw [hne, hfold]
      rfl
    exact ⟨_, key, rfl, rfl, rfl⟩
  · intro hnofile
    have hfilt : set.filter (fun e => e.kind == EntryType.File) = [] := by
      rw [List.filter_eq_nil_iff]
      intro a ha
      simp only [beq_iff_eq]
      exact hnofile a ha
    have hsp := assembleFoldl_spec set (none, none, [])
    have hf : (set.foldl assembleStep (none, none, [])).1 = none := by
      rw [hsp.1, hfilt]; rfl
    unfold assembleFile
    split
    · rfl
    · rcases hp : set.foldl assembleStep (none, none, []) with ⟨fc, sc, nc⟩
      rw [hp] at hf
      have hfc : fc = none := hf
      rw [hfc]
  · intro hnostream
    have hfilt : set.filter (fun e => e.kind == EntryType.StreamExt) = [] := by
      rw [List.filter_eq_nil_iff]
      intro a ha
      simp only [beq_iff_eq]
      exact hnostream a ha
    have hsp := assembleFoldl_spec set (none, none, [])
    have hs : (set.foldl assembleStep (none, none, [])).2.1 = none := by
      rw [hsp.2.1, hfilt]; rfl
    unfold assembleFile
    split
    · rfl
    · rcases hp : set.foldl assembleStep (none, none, []) with ⟨fc, sc, nc⟩
      rw [hp] at hs
      have hsc : sc = none := hs
      rw [hsc]
      cases fc <;> rfl

theorem assemble_file_spec_witness :
    (∃ fr, assembleFile setFull = some fr ∧
      fr.size = (StreamExtensionEntry.parse (RawDirEnt.fromBytes (streamEntRaw 3))).dataLength ∧
      fr.firstCluster = (StreamExtensionEntry.parse (RawDirEnt.fromBytes (streamEntRaw 3))).firstCluster ∧
      fr.name = ((setFull.filter (fun e => e.kind == EntryType.FileName)).map nameFragment).flatten) ∧
    assembleFile setNoFile = none ∧ assembleFile setNoStream = none :=
  ⟨(assemble_file_spec setFull (RawDirEnt.fromBytes (streamEntRaw 3))).1 (by decide) (by decide),
   (assemble_file_spec setNoFile (RawDirEnt.fromBytes (streamEntRaw 3))).2.1 (by decide),
   (assemble_file_spec setNoStream (RawDirEnt.fromBytes (streamEntRaw 3))).2.2 (by decide)⟩


theorem foldAsciiLower_toUpper (c : Nat) : foldAsciiLower (toUpperAscii c) = foldAsciiLower c := by
  unfold foldAsciiLower toUpperAscii
  split_ifs <;> omega

theorem foldAsciiLower_toLower (c : Nat) : foldAsciiLower (toLowerAscii c) = foldAsciiLower c := by
  unfold foldAsciiLower toLowerAscii
  split_ifs <;> omega

theorem toUpperAscii_slash (c : Nat) : toUpperAscii c = 47 ↔ c = 47 := by
  unfold toUpperAscii; split_ifs <;> omega

theorem toLowerAscii_slash (c : Nat) : toLowerAscii c = 47 ↔ c = 47 := by
  unfold toLowerAscii; split_ifs <;> omega

theorem eqIgnoreAsciiCase_map (f : Nat → Nat) (hf : ∀ c, foldAsciiLower (f c) = foldAsciiLower c)
    (a b : List Nat) : eqIgnoreAsciiCase a (b.map f) = eqIgnoreAsciiCase a b := by
  unfold eqIgnoreAsciiCase
  rw [List.map_map]
  have hcomp : foldAsciiLower ∘ f = foldAsciiLower := funext hf
  rw [hcomp]

theorem find?_eqIgnore_map (f : Nat → Nat) (hf : ∀ c, foldAsciiLower (f c) = foldAsciiLower c)
    (l : List FileRecord) (comp : List Nat) :
    l.find? (fun e => eqIgnoreAsciiCase e.name (comp.map f)) =
      l.find? (fun e => eqIgnoreAsciiCase e.name comp) := by
  induction l with
  | nil => rfl
  | cons e rest ih =>
    rw [List.find?_cons, List.find?_cons, eqIgnoreAsciiCase_map f hf, ih]

theorem splitSlashGo_map (f : Nat → Nat) (hs : ∀ c, f c = 47 ↔ c = 47) :
    ∀ (p acc : List Nat),
      splitSlashGo (p.map f) (acc.map f) = (splitSlashGo p acc).map (List.map f) := by
  intro p
  induction p with
  | nil => intro acc; simp [splitSlashGo, ← List.map_reverse]
  | cons c rest ih =>
    intro acc
    simp only [List.map_cons, splitSlashGo]
    by_cases h : c = 47
    · rw [if_pos ((hs c).mpr h), if_pos h]
      have hnil := ih []
      simp only [List.map_nil] at hnil
      rw [hnil, ← List.map_reverse]
      rfl
    · rw [if_neg (fun hc => h ((hs c).mp hc)), if_neg h]
      exact ih (c :: acc)

theorem filter_nonempty_map (f : Nat → Nat) (l : List (List Nat)) :
    (l.map (List.map f)).filter (fun c => !c.isEmpty) =
      (l.filter (fun c => !c.isEmpty)).map (List.map f) := by
  induction l with
  | nil => rfl
  | cons a rest ih =>
    cases a with
    | nil => simpa using ih
    | cons x xs =>
      simp only [List.map_cons, List.filter_cons]
      simpa using ih

theorem readPathGo_map_outcome (vol : Volume) (f : Nat → Nat)
    (hf : ∀ c, foldAsciiLower (f c) = foldAsciiLower c) :
    ∀ (parts : List (List Nat)) (cur : Nat),
      outcomeOf (readPathGo vol (parts.map (List.map f)) cur) =
        outcomeOf (readPathGo vol parts cur) := by
  intro parts
  induction parts with
  | nil => intro cur; rfl
  | cons comp rest ih =>
    intro cur
    cases rest with
    | nil =>
      simp only [List.map_cons, List.map_nil, readPathGo]
      rw [find?_eqIgnore_map f hf]
      cases (listDir vol cur).find? (fun e => eqIgnoreAsciiCase e.name comp) with
      | none => rfl
      | some fr => rfl
    | cons c2 t =>
      simp only [List.map_cons, readPathGo]
      rw [find?_eqIgnore_map f hf]
      cases (listDir vol cur).find? (fun e => eqIgnoreAsciiCase e.name comp) with
      | none => rfl
      | some fr => exact ih fr.firstCluster

theorem readPath_map_outcome (vol : Volume) (f : Nat → Nat)
    (hf : ∀ c, foldAsciiLower (f c) = foldAsciiLower c)
    (hs : ∀ c, f c = 47 ↔ c = 47) (p : List Nat) :
    outcomeOf (readPath vol (p.map f)) = outcomeOf (readPath vol p) := by
  unfold readPath
  have hsplit : splitSlash (p.map f) = (splitSlash p).map (List.map f) := by
    unfold splitSlash
    have h := splitSlashGo_map f hs p []
    simpa using h
  rw [hsplit, filter_nonempty_map]
  cases (splitSlash p).filter (fun c => !c.isEmpty) with
  | nil => rfl
  | cons a t => exact readPathGo_map_outcome vol f hf (a :: t) vol.rootDirFirstCluster

/-- C7: for an ASCII-only path, read_path applied to the path, to its ASCII
uppercase image and to its ASCII lowercase image all produce the same
outcome: the same bytes on success and the same error kind on failure
(the NotFound message text echoes the component as written, so only the
kind is compared on failure), because component matching folds both sides
with ASCII lowercasing. -/
theorem read_path_ascii_case_insensitive (vol : Volume) (p : List Nat)
    (_hascii : ∀ c ∈ p, c < 128) :
    outcomeOf (readPath vol (p.map toUpperAscii)) = outcomeOf (readPath vol p) ∧
    outcomeOf (readPath vol (p.map toLowerAscii)) = outcomeOf (readPath vol p) :=
  ⟨readPath_map_outcome vol toUpperAscii foldAsciiLower_toUpper toUpperAscii_slash p,
   readPath_map_outcome vol toLowerAscii foldAsciiLower_toLower toLowerAscii_slash p⟩

theorem read_path_ascii_case_insensitive_witness :
    outcomeOf (readPath emptyVol ([47, 97].map toUpperAscii)) =
      outcomeOf (readPath emptyVol [47, 97]) ∧
    outcomeOf (readPath emptyVol ([47, 97].map toLowerAscii)) =
      outcomeOf (readPath emptyVol [47, 97]) :=
  read_path_ascii_case_insensitive emptyVol [47, 97] (by decide)


theorem wrap_diff (n cho spc bps c : Nat) (hn : 2 ≤ n) :
    ((cho + ((c + 1 + n - 2) % n * spc) % n) % n * bps % n
      + n - ((cho + ((c + n - 2) % n * spc) % n) % n * bps % n)) % n = bps * spc % n := by
  have hN : 0 < n := by omega
  have h1 : (2 : Nat) ≤ c + 1 + n := by omega
  have h2 : (2 : Nat) ≤ c + n := by omega
  have hYle : (cho + ((c + n - 2) % n * spc) % n) % n * bps % n ≤
      (cho + ((c + 1 + n - 2) % n * spc) % n) % n * bps % n + n := by
    have hY : (cho + ((c + n - 2) % n * spc) % n) % n * bps % n < n := Nat.mod_lt _ hN
    omega
  have hcast : (((cho + ((c + 1 + n - 2) % n * spc) % n) % n * bps % n
      + n - ((cho + ((c + n - 2) % n * spc) % n) % n * bps % n) : Nat) : ZMod n)
      = ((bps * spc % n : Nat) : ZMod n) := by
    rw [Nat.cast_sub hYle]
    push_cast [ZMod.natCast_mod, Nat.cast_sub h1, Nat.cast_sub h2]
    rw [ZMod.natCast_self]
    ring
  have hmod := (ZMod.natCast_eq_natCast_iff _ _ _).mp hcast
  unfold Nat.ModEq at hmod
  have hlt : bps * spc % n < n := Nat.mod_lt _ hN
  rw [Nat.mod_eq_of_lt hlt] at hmod
  exact hmod

theorem leBytes_lt : ∀ (l : List Nat), (∀ x ∈ l, x < 256) → leBytes l < 256 ^ l.length := by
  intro l
  induction l with
  | nil => intro _; norm_num [leBytes]
  | cons b rest ih =>
    intro h
    have hb : b < 256 := h b (by simp)
    have hr := ih (fun x hx => h x (by simp [hx]))
    simp only [leBytes, List.length_cons]
    have hpow : 256 ^ (rest.length + 1) = 256 * 256 ^ rest.length := by ring
    rw [hpow]
    omega

theorem readLE_lt (bs : List Nat) (o n : Nat) (h : ∀ x ∈ bs, x < 256) :
    readLE bs o n < 256 ^ n := by
  unfold readLE
  have hsub : ∀ x ∈ (bs.drop o).take n, x < 256 := fun x hx =>
    h x (List.mem_of_mem_drop (List.mem_of_mem_take hx))
  have hlt := leBytes_lt _ hsub
  have hlen : ((bs.drop o).take n).length ≤ n := by
    rw [List.length_take]; omega
  exact lt_of_lt_of_le hlt (Nat.pow_le_pow_right (by norm_num) hlen)

theorem validateBoot_ok_facts (me b : BootSector) (h : validateBoot me = .ok b) :
    b = me ∧ 9 ≤ me.bytesPerSectorShift ∧ me.bytesPerSectorShift ≤ 12 ∧
      me.sectorsPerClusterShift ≤ 25 := by
  delta validateBoot at h
  by_cases hc1 : me.oemName ≠ exfatOemName
  · rw [if_pos hc1] at h; exact Except.noConfusion h
  rw [if_neg hc1] at h
  by_cases hc2 : me.fsRevision ≠ 256
  · rw [if_pos hc2] at h; exact Except.noConfusion h
  rw [if_neg hc2] at h
  by_cases hc3 : me.numFats ≠ 1
  · rw [if_pos hc3] at h; exact Except.noConfusion h
  rw [if_neg hc3] at h
  by_cases hc4 : me.volumeLength = 0
  · rw [if_pos hc4] at h; exact Except.noConfusion h
  rw [if_neg hc4] at h
  by_cases hc5 : me.fatOffset = 0 ∨ me.fatLength = 0
  · rw [if_pos hc5] at h; exact Except.noConfusion h
  rw [if_neg hc5] at h
  by_cases hc6 : me.clusterHeapOffset = 0 ∨ me.clusterCount < 2
  · rw [if_pos hc6] at h; exact Except.noConfusion h
  rw [if_neg hc6] at h
  by_cases hc7 : me.rootDirFirstCluster < 2
  · rw [if_pos hc7] at h; exact Except.noConfusion h
  rw [if_neg hc7] at h
  by_cases hc8 : ¬ (9 ≤ me.bytesPerSectorShift ∧ me.bytesPerSectorShift ≤ 12)
  · rw [if_pos hc8] at h; exact Except.noConfusion h
  rw [if_neg hc8] at h
  by_cases hc9 : 25 < me.sectorsPerClusterShift
  · rw [if_pos hc9] at h; exact Except.noConfusion h
  rw [if_neg hc9] at h
  by_cases hc10 : me.bytesPerCluster < 4096 ∨ 33554432 < me.bytesPerCluster
  · rw [if_pos hc10] at h; exact Except.noConfusion h
  rw [if_neg hc10] at h
  by_cases hc11 : me.clusterHeapOffset < me.fatOffset + me.fatLength
  · rw [if_pos hc11] at h; exact Except.noConfusion h
  rw [if_neg hc11] at h
  by_cases hc12 : me.rootDirFirstCluster < 2 ∨ me.clusterCount + 1 < me.rootDirFirstCluster
  · rw [if_pos hc12] at h; exact Except.noConfusion h
  rw [if_neg hc12] at h
  injection h with hme
  subst hme
  have hbps := not_not.mp hc8
  refine ⟨rfl, ?_, ?_, ?_⟩ <;> omega

theorem fromBytes_ok_facts (bs : List Nat) (b : BootSector)
    (h : BootSector.fromBytes bs = .ok b) :
    b = parseBootSectorFields bs ∧ 9 ≤ b.bytesPerSectorShift ∧ b.bytesPerSectorShift ≤ 12 ∧
      b.sectorsPerClusterShift ≤ 25 := by
  unfold BootSector.fromBytes at h
  split at h
  · exact Except.noConfusion h
  split at h
  · exact Except.noConfusion h
  obtain ⟨hb, hx1, hx2, hx3⟩ := validateBoot_ok_facts _ b h
  subst hb
  exact ⟨rfl, hx1, hx2, hx3⟩

/-- C8: for every boot sector of bytes accepted by the validator, the byte
offset of cluster 2 is cluster_heap_offset times bytes_per_sector, and the
wrapping u64 difference between the offsets of any two consecutive cluster
numbers is bytes_per_cluster. -/
theorem cluster_offset_geometry (bs : List Nat) (b : BootSector)
    (hbytes : ∀ x ∈ bs, x < 256) (hok : BootSector.fromBytes bs = .ok b) :
    b.clusterToByteOffset 2 = b.clusterHeapOffset * b.bytesPerSector ∧
    ∀ c : Nat, u64sub (b.clusterToByteOffset (c + 1)) (b.clusterToByteOffset c) =
      b.bytesPerCluster := by
  obtain ⟨hbe, h9, h12, h25⟩ := fromBytes_ok_facts bs b hok
  have hbps_le : b.bytesPerSector ≤ 4096 := by
    unfold BootSector.bytesPerSector
    rw [Nat.mod_eq_of_lt (by omega)]
    calc 2 ^ b.bytesPerSectorShift ≤ 2 ^ 12 := Nat.pow_le_pow_right (by norm_num) h12
    _ = 4096 := by norm_num
  have hspc_le : b.sectorsPerCluster ≤ 33554432 := by
    unfold BootSector.sectorsPerCluster
    have hm : b.sectorsPerClusterShift % 64 ≤ 25 := le_trans (Nat.mod_le _ _) h25
    calc 2 ^ (b.sectorsPerClusterShift % 64) ≤ 2 ^ 25 := Nat.pow_le_pow_right (by norm_num) hm
    _ = 33554432 := by norm_num
  have hcho : b.clusterHeapOffset < 4294967296 := by
    rw [hbe]
    calc readLE bs 88 4 < 256 ^ 4 := readLE_lt bs 88 4 hbytes
    _ = 4294967296 := by norm_num
  constructor
  · unfold BootSector.clusterToByteOffset
    have h0 : (2 + U64 - 2) % U64 = 0 := by
      have he : 2 + U64 - 2 = U64 := by omega
      rw [he, Nat.mod_self]
    rw [h0]
    simp only [Nat.zero_mul, Nat.zero_mod, Nat.add_zero]
    have hcho64 : b.clusterHeapOffset < U64 := by
      calc b.clusterHeapOffset < 4294967296 := hcho
      _ ≤ U64 := by norm_num [U64]
    rw [Nat.mod_eq_of_lt hcho64]
    apply Nat.mod_eq_of_lt
    calc b.clusterHeapOffset * b.bytesPerSector ≤ 4294967295 * 4096 :=
      Nat.mul_le_mul (by omega) hbps_le
    _ < U64 := by norm_num [U64]
  · intro c
    have hXlt : b.clusterToByteOffset (c + 1) < U64 := by
      unfold BootSector.clusterToByteOffset
      exact Nat.mod_lt _ (by norm_num [U64])
    have hYlt : b.clusterToByteOffset c < U64 := by
      unfold BootSector.clusterToByteOffset
      exact Nat.mod_lt _ (by norm_num [U64])
    unfold u64sub
    rw [Nat.mod_eq_of_lt hXlt, Nat.mod_eq_of_lt hYlt]
    unfold BootSector.clusterToByteOffset BootSector.bytesPerCluster
    exact wrap_diff U64 b.clusterHeapOffset b.sectorsPerCluster b.bytesPerSector c
      (by norm_num [U64])

set_option maxRecDepth 10000 in
theorem cluster_offset_geometry_witness :
    validBoot.clusterToByteOffset 2 = validBoot.clusterHeapOffset * validBoot.bytesPerSector ∧
    ∀ c : Nat, u64sub (validBoot.clusterToByteOffset (c + 1)) (validBoot.clusterToByteOffset c) =
      validBoot.bytesPerCluster :=
  cluster_offset_geometry validSector validBoot (by decide) (by decide)


/-- C9: a 512-byte boot sector whose bytes 3..11 spell MSDOS5.0 and whose
bytes 510..512 hold 0x55 0xAA is rejected at open with the Parse error
whose payload is the OEM-name rejection carrying MSDOS5.0: the signature
check passes and the OEM-name check is the one that rejects. -/
theorem open_rejects_msdos_oem (bs : List Nat) (hlen : bs.length = 512)
    (hoem : (bs.drop 3).take 8 = msdosOemName) (hsig : bs.drop 510 = [85, 170]) :
    exfatNew bs = .error (.parse (.oemNotExfat msdosOemName)) := by
  have htake : bs.take 512 = bs := List.take_of_length_le (by omega)
  have hsigval : readLE bs 510 2 = 43605 := by
    unfold readLE
    rw [hsig]
    decide
  have hfb : BootSector.fromBytes bs = .error (.oemNotExfat msdosOemName) := by
    unfold BootSector.fromBytes
    rw [if_neg (by omega), if_neg (by rw [hsigval]; exact fun hne => hne rfl)]
    have hoemfield : (parseBootSectorFields bs).oemName = msdosOemName := hoem
    delta validateBoot
    rw [if_pos (by rw [hoemfield]; decide), hoemfield]
  unfold exfatNew
  rw [if_neg (by omega), htake, hfb]

set_option maxRecDepth 10000 in
theorem open_rejects_msdos_oem_witness :
    exfatNew msdosSector = .error (.parse (.oemNotExfat msdosOemName)) :=
  open_rejects_msdos_oem msdosSector (by decide) (by decide) (by decide)

/-- C10: for a non-directory inode, list_dir_inode fails with the NotFound
kind carrying the text not a directory (not with NotAFile), whatever the
index holds; for a directory inode it returns only entries whose recorded
parent first cluster equals the first cluster of the inode, sorted by
name. -/
theorem list_dir_inode_spec (index : List IndexEntry) (inode : ExInode) :
    (inode.isDir = false → listDirInode index inode = .error (.notFound notADirectoryMsg)) ∧
    (inode.isDir = true → ∃ l, listDirInode index inode = .ok l ∧
      (∀ d ∈ l, ∃ e ∈ index, e.parent = inode.firstCluster ∧
        d = CompatDirEntry.fromNameInode e.record.name e.ino e.record.isDir) ∧
      List.Sorted nameLe l) := by
  constructor
  · intro h
    simp [listDirInode, h]
  · intro h
    refine ⟨List.insertionSort nameLe
        ((index.filter (fun e => e.parent == inode.firstCluster)).map
          (fun e => CompatDirEntry.fromNameInode e.record.name e.ino e.record.isDir)),
      ?_, ?_, List.sorted_insertionSort nameLe _⟩
    · simp [listDirInode, h]
    intro d hd
    have hd2 : d ∈ (index.filter (fun e => e.parent == inode.firstCluster)).map
        (fun e => CompatDirEntry.fromNameInode e.record.name e.ino e.record.isDir) :=
      (List.perm_insertionSort nameLe _).mem_iff.mp hd
    obtain ⟨e, hef, hde⟩ := List.mem_map.mp hd2
    obtain ⟨hei, hep⟩ := List.mem_filter.mp hef
    exact ⟨e, hei, beq_iff_eq.mp hep, hde.symm⟩

theorem list_dir_inode_spec_witness :
    listDirInode c10Index c10FileInode = .error (.notFound notADirectoryMsg) ∧
    (∃ l, listDirInode c10Index c10DirInode = .ok l ∧
      (∀ d ∈ l, ∃ e ∈ c10Index, e.parent = c10DirInode.firstCluster ∧
        d = CompatDirEntry.fromNameInode e.record.name e.ino e.record.isDir) ∧
      List.Sorted nameLe l) :=
  ⟨(list_dir_inode_spec c10Index c10FileInode).1 (by decide),
   (list_dir_inode_spec c10Index c10DirInode).2 (by decide)⟩

end ExhumeExfat
